import Mathlib

/-!
Shallow embedding of the creative-chess-fuse rules layer.

The embedding follows the TypeScript source:
* `src/src/hooks/useChessGame.ts` — `checkWinCondition`, `makeMove`,
  `executeAction`, `resetGame`, the initial `useState` values and the
  boolean action registry;
* `src/src/types/chess.ts` — the `GameState` record shape;
* `src/unnamed/part_000` — the helpers (`getSquareDistance`,
  `getOpponentColor`, `getPiecesOfColor`) and the 15 entries of
  `creativeActions` (each `validateTarget` / `execute` pair).

The external chess.js engine is out of scope for the rules layer (the spec
lists it as a collaborator); successful engine moves are modelled as an
arbitrary resulting position, and the board operations the actions use
(`get`, `remove`, `put`, `fen`-copy) are modelled directly on a
square-indexed board.  `Math.random()` draws are modelled as a stream of
d6 outcomes consumed in call order.
-/

/-- Piece colors, `'w' | 'b'` in `src/src/types/chess.ts`. -/
inductive PieceColor where
  | w
  | b
deriving DecidableEq, Repr, Fintype

/-- Piece types, `'p' | 'r' | 'n' | 'b' | 'q' | 'k'` in `src/src/types/chess.ts`. -/
inductive PieceType where
  | p
  | r
  | n
  | b
  | q
  | k
deriving DecidableEq, Repr, Fintype

/-- A piece as chess.js `get` returns it: a type and a color. -/
structure Piece where
  type : PieceType
  color : PieceColor
deriving DecidableEq, Repr

/-- A board square: file 0–7 (`a`–`h`) and rank 0–7 (chess ranks 1–8). -/
structure Square where
  file : Fin 8
  rank : Fin 8
deriving DecidableEq, Repr, Fintype

/-- The game phase, `'standard' | 'creative'` in `src/src/types/chess.ts`. -/
inductive Phase where
  | standard
  | creative
deriving DecidableEq, Repr

/-- The chess.js position as the rules layer sees it: piece lookup per
square plus the side to move (`turn()`).  `new Chess(fen)` copies both;
`remove`/`put` change only `pieceAt`. -/
structure ChessPos where
  pieceAt : Square → Option Piece
  turn : PieceColor

/-- chess.js `remove(square)`. -/
def removeSquare (pos : ChessPos) (t : Square) : ChessPos :=
  { pos with pieceAt := fun s => if s = t then none else pos.pieceAt s }

/-- chess.js `put(piece, square)`. -/
def putPiece (pos : ChessPos) (piece : Piece) (t : Square) : ChessPos :=
  { pos with pieceAt := fun s => if s = t then some piece else pos.pieceAt s }

/-- Build a square from raw numeric file/rank, when both are on the board. -/
def mkSquare? (f r : Nat) : Option Square :=
  if hf : f < 8 then
    if hr : r < 8 then some ⟨⟨f, hf⟩, ⟨r, hr⟩⟩ else none
  else none

/-- `getSquareDistance` from `src/unnamed/part_000`: Manhattan distance of
two squares (sum of absolute file and rank differences). -/
def getSquareDistance (s1 s2 : Square) : Nat :=
  ((s1.file.val : Int) - s2.file.val).natAbs + ((s1.rank.val : Int) - s2.rank.val).natAbs

/-- `getOpponentColor` from `src/unnamed/part_000`. -/
def getOpponentColor (c : PieceColor) : PieceColor :=
  if c = PieceColor.w then PieceColor.b else PieceColor.w

/-- The square scan order used by every board loop in the source:
`for rank = 1..8 { for file = 0..7 }` — rank-major ascending, files `a`–`h`
inside each rank. -/
def scanSquares : List Square :=
  (List.finRange 8).flatMap fun r => (List.finRange 8).map fun f => ⟨f, r⟩

/-- Position of a square in the source's scan order. -/
def scanIdx (s : Square) : Nat :=
  s.rank.val * 8 + s.file.val

/-- `getPiecesOfColor` from `src/unnamed/part_000`: all pieces of a color
with their squares, in scan order. -/
def getPiecesOfColor (pos : ChessPos) (c : PieceColor) : List (Piece × Square) :=
  scanSquares.filterMap fun s =>
    match pos.pieceAt s with
    | some piece => if piece.color = c then some (piece, s) else none
    | none => none

/-- The per-color piece count of `checkWinCondition` in
`src/src/hooks/useChessGame.ts` (its rank/file double loop). -/
def countPieces (pos : ChessPos) (c : PieceColor) : Nat :=
  (scanSquares.filter fun s =>
    match pos.pieceAt s with
    | some piece => piece.color = c
    | none => false).length

/-- `checkWinCondition` from `src/src/hooks/useChessGame.ts`: white counted
first — zero white pieces means black wins, else zero black pieces means
white wins, else the game continues. -/
def checkWinCondition (pos : ChessPos) : Bool × Option PieceColor :=
  if countPieces pos PieceColor.w = 0 then (true, some PieceColor.b)
  else if countPieces pos PieceColor.b = 0 then (true, some PieceColor.w)
  else (false, none)

/-- `GameState` from `src/src/types/chess.ts` (the `chess` field is the
engine position). -/
structure GameState where
  chess : ChessPos
  currentPlayer : PieceColor
  phase : Phase
  halfMoves : Nat
  selectedSquare : Option Square
  validMoves : List Square
  gameOver : Bool
  winner : Option PieceColor
  lastMove : Option (Square × Square)

/-- `CREATIVE_PHASE_THRESHOLD` from `src/src/hooks/useChessGame.ts`. -/
def CREATIVE_PHASE_THRESHOLD : Nat := 20

/-- The success branch of `makeMove` in `src/src/hooks/useChessGame.ts`,
given the position the engine returned for the move: increment `halfMoves`,
recompute `phase` against the threshold, take `currentPlayer` from the
engine's `turn()`, clear the selection, record `lastMove`, and evaluate the
win condition. -/
def applyMoveResult (gs : GameState) (f t : Square) (nc : ChessPos) : GameState :=
  let newHalfMoves := gs.halfMoves + 1
  let newPhase :=
    if CREATIVE_PHASE_THRESHOLD ≤ newHalfMoves then Phase.creative else Phase.standard
  let w := checkWinCondition nc
  { gs with
    chess := nc
    currentPlayer := nc.turn
    phase := newPhase
    halfMoves := newHalfMoves
    selectedSquare := none
    validMoves := []
    lastMove := some (f, t)
    gameOver := w.1
    winner := w.2 }

/-- `makeMove` from `src/src/hooks/useChessGame.ts`.  The chess.js legality
check is the external engine, passed in as `engine`; the hook returns
`false` (no state change) when the engine rejects the move. -/
def makeMove (engine : ChessPos → Square → Square → Option ChessPos)
    (gs : GameState) (f t : Square) : Option GameState :=
  match engine gs.chess f t with
  | some nc => some (applyMoveResult gs f t nc)
  | none => none

/-- The 15 action ids of `creativeActions` in `src/unnamed/part_000`. -/
inductive ActionId where
  | snip
  | rubberBand
  | nuke
  | jobApplication
  | robotProxy
  | swapPlaces
  | shield
  | empBlast
  | lootDrop
  | timeFreeze
  | cloneRay
  | spyDrone
  | sniperShot
  | puzzleTrap
  | rocketBarrage
deriving DecidableEq, Repr, Fintype

/-- The action list in source order. -/
def actionIdList : List ActionId :=
  [ActionId.snip, ActionId.rubberBand, ActionId.nuke, ActionId.jobApplication,
   ActionId.robotProxy, ActionId.swapPlaces, ActionId.shield, ActionId.empBlast,
   ActionId.lootDrop, ActionId.timeFreeze, ActionId.cloneRay, ActionId.spyDrone,
   ActionId.sniperShot, ActionId.puzzleTrap, ActionId.rocketBarrage]

/-- The hook's `actionRegistry`: `false` = unused, `true` = used. -/
def Registry : Type := ActionId → Bool

/-- `needsTarget` flag of each `creativeActions` entry.  In the source an
entry has a `validateTarget` exactly when `needsTarget` is `true`, so the
hook's `action.validateTarget && action.needsTarget` guard reduces to this
flag. -/
def needsTarget : ActionId → Bool
  | ActionId.empBlast => false
  | ActionId.lootDrop => false
  | ActionId.timeFreeze => false
  | ActionId.spyDrone => false
  | _ => true

/-- The `validateTarget` functions of `creativeActions`, on the argument
list the hook spreads into them.  Extra arguments are ignored (as in JS);
a missing argument makes the JS check fail (an `undefined` square never
holds a piece), modelled as `false` for the short shapes. -/
def validateTarget (a : ActionId) (gs : GameState) (args : List Square) : Bool :=
  match a, args with
  | ActionId.snip, t :: _ =>
      match gs.chess.pieceAt t with
      | some piece => decide (piece.type = PieceType.p ∧ piece.color ≠ gs.currentPlayer)
      | none => false
  | ActionId.rubberBand, t :: _ =>
      -- source: `piece?.color !== gameState.currentPlayer` — an empty
      -- square (`undefined` color) also passes.
      match gs.chess.pieceAt t with
      | some piece => decide (piece.color ≠ gs.currentPlayer)
      | none => true
  | ActionId.nuke, c :: _ =>
      decide (c.file.val ≤ 6 ∧ c.rank.val ≤ 6)
  | ActionId.jobApplication, t :: _ =>
      match gs.chess.pieceAt t with
      | some piece => decide (piece.color = gs.currentPlayer)
      | none => false
  | ActionId.robotProxy, t :: _ =>
      match gs.chess.pieceAt t with
      | some piece => decide (piece.color = gs.currentPlayer)
      | none => false
  | ActionId.swapPlaces, s1 :: s2 :: _ =>
      match gs.chess.pieceAt s1, gs.chess.pieceAt s2 with
      | some p1, some p2 =>
          decide (p1.color = gs.currentPlayer ∧ p2.color = gs.currentPlayer ∧
            p1.type ≠ PieceType.k ∧ p2.type ≠ PieceType.k)
      | _, _ => false
  | ActionId.shield, t :: _ =>
      match gs.chess.pieceAt t with
      | some piece => decide (piece.color = gs.currentPlayer)
      | none => false
  | ActionId.cloneRay, s :: t :: _ =>
      match gs.chess.pieceAt s, gs.chess.pieceAt t with
      | some piece, none =>
          decide (piece.color = gs.currentPlayer ∧ piece.type ≠ PieceType.k)
      | _, _ => false
  | ActionId.sniperShot, t :: _ =>
      match gs.chess.pieceAt t with
      | some piece =>
          decide (piece.color ≠ gs.currentPlayer) &&
            (getPiecesOfColor gs.chess gs.currentPlayer).any fun ps =>
              decide (3 ≤ getSquareDistance ps.2 t)
      | none => false
  | ActionId.puzzleTrap, t :: _ =>
      match gs.chess.pieceAt t with
      | some _ => false
      | none => true
  | ActionId.rocketBarrage, ts =>
      decide (ts.length ≤ 3) && ts.all fun s =>
        match gs.chess.pieceAt s with
        | some piece => decide (piece.color ≠ gs.currentPlayer)
        | none => false
  | _, _ => false

/-- `robotProxy.execute` from `src/unnamed/part_000`: find the first enemy
piece of the pilot's type in scan order and remove it; otherwise fall back
to the first pawn, else queen, else king; otherwise leave the board as is. -/
def robotProxyExec (gs : GameState) (t : Square) : GameState :=
  match gs.chess.pieceAt t with
  | none => gs
  | some pilot =>
    let opp := getPiecesOfColor gs.chess (getOpponentColor pilot.color)
    match opp.find? fun ps => ps.1.type == pilot.type with
    | some found => { gs with chess := removeSquare gs.chess found.2 }
    | none =>
      match opp.find? fun ps => ps.1.type == PieceType.p with
      | some fb => { gs with chess := removeSquare gs.chess fb.2 }
      | none =>
        match opp.find? fun ps => ps.1.type == PieceType.q with
        | some fb => { gs with chess := removeSquare gs.chess fb.2 }
        | none =>
          match opp.find? fun ps => ps.1.type == PieceType.k with
          | some fb => { gs with chess := removeSquare gs.chess fb.2 }
          | none => gs

/-- `nuke.execute` from `src/unnamed/part_000`: remove every opponent piece
in the 2×2 block anchored at `c`, file-major as in the source's loops. -/
def nukeExec (cur : PieceColor) (pos : ChessPos) (c : Square) : ChessPos :=
  [(c.file.val, c.rank.val), (c.file.val, c.rank.val + 1),
   (c.file.val + 1, c.rank.val), (c.file.val + 1, c.rank.val + 1)].foldl
    (fun acc fr =>
      match mkSquare? fr.1 fr.2 with
      | some s =>
          match acc.pieceAt s with
          | some piece => if piece.color ≠ cur then removeSquare acc s else acc
          | none => acc
      | none => acc) pos

/-- `swapPlaces.execute` from `src/unnamed/part_000`: remove both squares,
then put piece1 on square2 and piece2 on square1. -/
def swapExec (gs : GameState) (s1 s2 : Square) : GameState :=
  match gs.chess.pieceAt s1, gs.chess.pieceAt s2 with
  | some p1, some p2 =>
      { gs with chess :=
          putPiece (putPiece (removeSquare (removeSquare gs.chess s1) s2) p1 s2) p2 s1 }
  | _, _ => gs

/-- `cloneRay.execute` from `src/unnamed/part_000`: put a copy of the source
piece on the target square. -/
def cloneExec (gs : GameState) (s t : Square) : GameState :=
  match gs.chess.pieceAt s with
  | some piece => { gs with chess := putPiece gs.chess piece t }
  | none => gs

/-- The `rocketBarrage.execute` loop from `src/unnamed/part_000`: one d6
roll per target square, left to right; a target is removed when its roll is
4–6.  `rng k` is the d6 outcome of the `k`-th `Math.random()` draw
(`Math.floor(Math.random() * 6) + 1` is the value plus one). -/
def rocketGo (rng : Nat → Fin 6) : ChessPos → Nat → List Square → ChessPos × Nat
  | pos, k, [] => (pos, k)
  | pos, k, t :: ts =>
      let roll := (rng k).val + 1
      rocketGo rng (if 4 ≤ roll then removeSquare pos t else pos) (k + 1) ts

/-- The `execute` functions of `creativeActions`, dispatched by action id.
Entries whose source body is `return gameState` (rubberBand, shield,
empBlast, lootDrop, timeFreeze, spyDrone, puzzleTrap — the status-effect
and registry bookkeeping is unimplemented in the source) are the identity.
The second component is the index of the next unconsumed RNG draw. -/
def actionExecute (a : ActionId) (gs : GameState) (args : List Square)
    (rng : Nat → Fin 6) (k : Nat) : GameState × Nat :=
  match a, args with
  | ActionId.snip, t :: _ => ({ gs with chess := removeSquare gs.chess t }, k)
  | ActionId.nuke, c :: _ => ({ gs with chess := nukeExec gs.currentPlayer gs.chess c }, k)
  | ActionId.jobApplication, t :: _ => ({ gs with chess := removeSquare gs.chess t }, k)
  | ActionId.robotProxy, t :: _ => (robotProxyExec gs t, k)
  | ActionId.swapPlaces, s1 :: s2 :: _ => (swapExec gs s1 s2, k)
  | ActionId.cloneRay, s :: t :: _ => (cloneExec gs s t, k)
  | ActionId.sniperShot, t :: _ => ({ gs with chess := removeSquare gs.chess t }, k)
  | ActionId.rocketBarrage, ts =>
      let r := rocketGo rng gs.chess k ts
      ({ gs with chess := r.1 }, r.2)
  | _, _ => (gs, k)

/-- `executeAction` from `src/src/hooks/useChessGame.ts`: reject when the
action is already used or the phase is not creative; reject when the
action's `validateTarget` (present exactly for `needsTarget` actions)
fails; otherwise run `execute`, re-evaluate the win condition, switch
`currentPlayer`, and mark the action used.  `none` is the hook's `return
false` — taken before any state update. -/
def executeAction (gs : GameState) (reg : Registry) (a : ActionId) (args : List Square)
    (rng : Nat → Fin 6) (k : Nat) : Option (GameState × Registry × Nat) :=
  if reg a = true ∨ gs.phase ≠ Phase.creative then none
  else if needsTarget a = true ∧ validateTarget a gs args = false then none
  else
    let res := actionExecute a gs args rng k
    let w := checkWinCondition res.1.chess
    some
      ({ res.1 with
          gameOver := w.1
          winner := w.2
          currentPlayer :=
            if gs.currentPlayer = PieceColor.w then PieceColor.b else PieceColor.w },
        fun x => if x = a then true else reg x, res.2)

/-- `executeAction` as the hook's caller observes it: the returned boolean
plus the game state and registry after the call (unchanged when the hook
returned `false`, since every failure path precedes the state updates). -/
def executeActionRun (gs : GameState) (reg : Registry) (a : ActionId) (args : List Square)
    (rng : Nat → Fin 6) (k : Nat) : Bool × GameState × Registry :=
  match executeAction gs reg a args rng k with
  | none => (false, gs, reg)
  | some (gs', reg', _) => (true, gs', reg')

/-- `getAvailableActions` from `src/src/hooks/useChessGame.ts`: the actions
whose registry flag is still `false`. -/
def getAvailableActions (reg : Registry) : List ActionId :=
  actionIdList.filter fun a => !reg a

/-- The spec's `ActionUses` view of the boolean registry: an unused action
has exactly one use remaining; a used one has zero (the hook rejects any
second invocation). -/
def remainingUses (reg : Registry) (a : ActionId) : Nat :=
  if reg a then 0 else 1

/-- The piece layout of `new Chess()` — the standard initial position
(rank index 0 is chess rank 1). -/
def backRankNat : Nat → PieceType
  | 0 => PieceType.r
  | 1 => PieceType.n
  | 2 => PieceType.b
  | 3 => PieceType.q
  | 4 => PieceType.k
  | 5 => PieceType.b
  | 6 => PieceType.n
  | _ => PieceType.r

/-- Piece lookup of the standard initial position. -/
def standardPieceAt (s : Square) : Option Piece :=
  if s.rank.val = 0 then some ⟨backRankNat s.file.val, PieceColor.w⟩
  else if s.rank.val = 1 then some ⟨PieceType.p, PieceColor.w⟩
  else if s.rank.val = 6 then some ⟨PieceType.p, PieceColor.b⟩
  else if s.rank.val = 7 then some ⟨backRankNat s.file.val, PieceColor.b⟩
  else none

/-- `new Chess()`: standard position, white to move. -/
def standardPos : ChessPos :=
  { pieceAt := standardPieceAt, turn := PieceColor.w }

/-- The initial `useState` value of `gameState` in
`src/src/hooks/useChessGame.ts`. -/
def initialGameState : GameState :=
  { chess := standardPos
    currentPlayer := PieceColor.w
    phase := Phase.standard
    halfMoves := 0
    selectedSquare := none
    validMoves := []
    gameOver := false
    winner := none
    lastMove := none }

/-- The initial `actionRegistry`: every action id mapped to `false`. -/
def initialRegistry : Registry := fun _ => false

/-- `resetGame` from `src/src/hooks/useChessGame.ts`: a fresh game state
and a fresh all-`false` registry. -/
def resetGame : GameState × Registry :=
  ({ chess := { pieceAt := standardPieceAt, turn := PieceColor.w }
     currentPlayer := PieceColor.w
     phase := Phase.standard
     halfMoves := 0
     selectedSquare := none
     validMoves := []
     gameOver := false
     winner := none
     lastMove := none },
   fun _ => false)

/-- One turn of the game: either a successful `makeMove` (for an arbitrary
position the engine returned) or a successful `executeAction`. -/
inductive Step : GameState × Registry → GameState × Registry → Prop
  | move (gs : GameState) (reg : Registry) (f t : Square) (nc : ChessPos) :
      Step (gs, reg) (applyMoveResult gs f t nc, reg)
  | action (gs : GameState) (reg : Registry) (a : ActionId) (args : List Square)
      (rng : Nat → Fin 6) (k : Nat) (gs' : GameState) (reg' : Registry) (k' : Nat) :
      executeAction gs reg a args rng k = some (gs', reg', k') →
      Step (gs, reg) (gs', reg')

/-- States reachable from a fresh game by successful moves and actions. -/
def Reachable (st : GameState × Registry) : Prop :=
  Relation.ReflTransGen Step (initialGameState, initialRegistry) st

/-- Independent per-color piece count, as a cardinality over all squares. -/
def colorCard (pos : ChessPos) (c : PieceColor) : Nat :=
  (Finset.univ.filter fun s : Square =>
    (pos.pieceAt s).any fun piece => piece.color == c).card

/-! ### Helper lemmas about the scan order and piece lists -/

theorem mem_scanSquares (s : Square) : s ∈ scanSquares := by
  obtain ⟨f, r⟩ := s
  simp only [scanSquares, List.mem_flatMap, List.mem_map, List.mem_finRange, true_and]
  exact ⟨r, f, rfl⟩

theorem scanSquares_pairwise :
    scanSquares.Pairwise fun a b => scanIdx a < scanIdx b := by decide

theorem scanSquares_nodup : scanSquares.Nodup := by
  refine scanSquares_pairwise.imp ?_
  intro a b h
  intro he
  subst he
  exact Nat.lt_irrefl _ h

theorem mem_getPiecesOfColor {pos : ChessPos} {c : PieceColor} {piece : Piece} {s : Square} :
    (piece, s) ∈ getPiecesOfColor pos c ↔ pos.pieceAt s = some piece ∧ piece.color = c := by
  simp only [getPiecesOfColor, List.mem_filterMap]
  constructor
  · rintro ⟨a, -, hf⟩
    cases h : pos.pieceAt a with
    | none => simp [h] at hf
    | some pc =>
      simp only [h] at hf
      by_cases hc : pc.color = c
      · rw [if_pos hc] at hf
        simp only [Option.some.injEq, Prod.mk.injEq] at hf
        obtain ⟨h1, h2⟩ := hf
        subst h1; subst h2
        exact ⟨h, hc⟩
      · rw [if_neg hc] at hf
        exact absurd hf (by simp)
  · rintro ⟨h1, h2⟩
    refine ⟨s, mem_scanSquares s, ?_⟩
    simp only [h1]
    rw [if_pos h2]

/-- A `filterMap` that keeps the element it was built from in its second
component preserves pairwise relations keyed on that component. -/
theorem pairwise_filterMap_snd {l : List Square} {R : Square → Square → Prop}
    (f : Square → Option (Piece × Square)) (hf : ∀ a p b, f a = some (p, b) → b = a)
    (h : l.Pairwise R) :
    (l.filterMap f).Pairwise fun x y => R x.2 y.2 := by
  induction l with
  | nil => simp [List.filterMap]
  | cons a l ih =>
    rw [List.pairwise_cons] at h
    rw [List.filterMap_cons]
    cases hfa : f a with
    | none => exact ih h.2
    | some pb =>
      refine List.Pairwise.cons ?_ (ih h.2)
      intro y hy
      obtain ⟨b, hbl, hfb⟩ := List.mem_filterMap.mp hy
      obtain ⟨p1, b1⟩ := pb
      obtain ⟨p2, b2⟩ := y
      rw [hf a p1 b1 hfa, hf b p2 b2 hfb]
      exact h.1 b hbl

theorem pairwise_getPiecesOfColor (pos : ChessPos) (c : PieceColor) :
    (getPiecesOfColor pos c).Pairwise fun x y => scanIdx x.2 < scanIdx y.2 := by
  refine pairwise_filterMap_snd _ ?_ scanSquares_pairwise
  intro a p b hab
  cases h : pos.pieceAt a with
  | none => simp [h] at hab
  | some pc =>
    simp only [h] at hab
    by_cases hc : pc.color = c
    · rw [if_pos hc] at hab
      simp only [Option.some.injEq, Prod.mk.injEq] at hab
      exact hab.2.symm
    · rw [if_neg hc] at hab; exact absurd hab (by simp)

/-- `find?` on a pairwise-ordered list returns an element that satisfies the
predicate, belongs to the list, and relates to every other hit. -/
theorem find?_first_of_pairwise {α : Type} {R : α → α → Prop} {l : List α}
    {p : α → Bool} {a : α} (hpw : l.Pairwise R) (hfind : l.find? p = some a) :
    a ∈ l ∧ p a = true ∧ ∀ b ∈ l, p b = true → a = b ∨ R a b := by
  induction l with
  | nil => exact absurd hfind (by simp)
  | cons x l ih =>
    rw [List.pairwise_cons] at hpw
    by_cases hx : p x = true
    · rw [List.find?_cons_of_pos _ hx] at hfind
      cases Option.some.injEq .. ▸ hfind
      refine ⟨List.mem_cons_self .., hx, ?_⟩
      intro b hb _
      rcases List.mem_cons.mp hb with hb | hb
      · exact Or.inl hb.symm
      · exact Or.inr (hpw.1 b hb)
    · rw [List.find?_cons_of_neg _ (by simpa using hx)] at hfind
      obtain ⟨h1, h2, h3⟩ := ih hpw.2 hfind
      refine ⟨List.mem_cons_of_mem _ h1, h2, ?_⟩
      intro b hb hpb
      rcases List.mem_cons.mp hb with hb | hb
      · subst hb; exact absurd hpb hx
      · exact h3 b hb hpb

/-- `find?` succeeds as soon as some member satisfies the predicate. -/
theorem find?_isSome_of_mem {α : Type} {l : List α} {p : α → Bool} {a : α}
    (ha : a ∈ l) (hp : p a = true) : (l.find? p).isSome = true := by
  induction l with
  | nil => exact absurd ha (by simp)
  | cons x l ih =>
    by_cases hx : p x = true
    · rw [List.find?_cons_of_pos _ hx]; rfl
    · rw [List.find?_cons_of_neg _ (by simpa using hx)]
      rcases List.mem_cons.mp ha with h | h
      · subst h; exact absurd hp hx
      · exact ih h

theorem countPieces_eq_colorCard (pos : ChessPos) (c : PieceColor) :
    countPieces pos c = colorCard pos c := by
  unfold countPieces colorCard
  have hnd := scanSquares_nodup.filter
    (p := fun s => match pos.pieceAt s with
                   | some piece => decide (piece.color = c)
                   | none => false)
  rw [← List.toFinset_card_of_nodup hnd, List.toFinset_filter]
  have huniv : scanSquares.toFinset = Finset.univ :=
    Finset.eq_univ_iff_forall.mpr fun s => List.mem_toFinset.mpr (mem_scanSquares s)
  rw [huniv]
  congr 1
  apply Finset.filter_congr
  intro s _
  cases pos.pieceAt s <;> simp [Option.any]

/-! ### Structural lemmas about action execution -/

theorem robotProxyExec_fields (gs : GameState) (t : Square) :
    (robotProxyExec gs t).currentPlayer = gs.currentPlayer ∧
    (robotProxyExec gs t).phase = gs.phase ∧
    (robotProxyExec gs t).halfMoves = gs.halfMoves := by
  unfold robotProxyExec
  dsimp only
  repeat' split
  all_goals exact ⟨rfl, rfl, rfl⟩

theorem swapExec_fields (gs : GameState) (s1 s2 : Square) :
    (swapExec gs s1 s2).currentPlayer = gs.currentPlayer ∧
    (swapExec gs s1 s2).phase = gs.phase ∧
    (swapExec gs s1 s2).halfMoves = gs.halfMoves := by
  unfold swapExec
  repeat' split
  all_goals exact ⟨rfl, rfl, rfl⟩

theorem cloneExec_fields (gs : GameState) (s t : Square) :
    (cloneExec gs s t).currentPlayer = gs.currentPlayer ∧
    (cloneExec gs s t).phase = gs.phase ∧
    (cloneExec gs s t).halfMoves = gs.halfMoves := by
  unfold cloneExec
  repeat' split
  all_goals exact ⟨rfl, rfl, rfl⟩

/-- Every action's `execute` is of the form `{ ...gameState, chess }`: it
never touches `currentPlayer`, `phase` or `halfMoves`. -/
theorem actionExecute_fields (a : ActionId) (gs : GameState) (args : List Square)
    (rng : Nat → Fin 6) (k : Nat) :
    (actionExecute a gs args rng k).1.currentPlayer = gs.currentPlayer ∧
    (actionExecute a gs args rng k).1.phase = gs.phase ∧
    (actionExecute a gs args rng k).1.halfMoves = gs.halfMoves := by
  rcases args with - | ⟨x, - | ⟨y, rest⟩⟩ <;> cases a <;>
    first
      | exact ⟨rfl, rfl, rfl⟩
      | exact robotProxyExec_fields ..
      | exact swapExec_fields ..
      | exact cloneExec_fields ..

/-- Unpacking a successful `executeAction`: the guards were passed, the
player was switched, the bookkeeping fields were carried over from
`execute`'s result (hence unchanged), and the action was marked used. -/
theorem executeAction_some {gs : GameState} {reg : Registry} {a : ActionId}
    {args : List Square} {rng : Nat → Fin 6} {k : Nat}
    {gs' : GameState} {reg' : Registry} {k' : Nat}
    (h : executeAction gs reg a args rng k = some (gs', reg', k')) :
    reg a = false ∧ gs.phase = Phase.creative ∧
    gs'.currentPlayer = (if gs.currentPlayer = PieceColor.w then PieceColor.b else PieceColor.w) ∧
    gs'.phase = gs.phase ∧ gs'.halfMoves = gs.halfMoves ∧
    reg' = fun x => if x = a then true else reg x := by
  unfold executeAction at h
  split at h
  · exact absurd h (by simp)
  · rename_i hcond
    push_neg at hcond
    split at h
    · exact absurd h (by simp)
    · simp only [Option.some.injEq, Prod.mk.injEq] at h
      obtain ⟨hgs, hreg, -⟩ := h
      obtain ⟨hcp, hph, hhm⟩ := actionExecute_fields a gs args rng k
      refine ⟨by simpa using hcond.1, hcond.2, ?_, ?_, ?_, hreg.symm⟩
      · rw [← hgs]
      · rw [← hgs]; exact hph
      · rw [← hgs]; exact hhm

/-! ### Concrete data used by witnesses and counterexamples -/

/-- A fixed RNG stream: every d6 roll is 1 (`Math.random()` small). -/
def cRng : Nat → Fin 6 := fun _ => 0

/-- A fixed RNG stream: every d6 roll is 6 (`Math.random()` near 1). -/
def cRngHigh : Nat → Fin 6 := fun _ => 5

/-- Square e2 (file 4, rank index 1). -/
def sqE2 : Square := ⟨4, 1⟩

/-- Square e3 (file 4, rank index 2). -/
def sqE3 : Square := ⟨4, 2⟩

/-- Square e4 (file 4, rank index 3). -/
def sqE4 : Square := ⟨4, 3⟩

/-- Square b1 (file 1, rank index 0). -/
def sqB1 : Square := ⟨1, 0⟩

/-- Square b8 (file 1, rank index 7). -/
def sqB8 : Square := ⟨1, 7⟩

/-- Square c6 (file 2, rank index 5). -/
def sqC6 : Square := ⟨2, 5⟩

/-- Square a7 (file 0, rank index 6). -/
def sqA7 : Square := ⟨0, 6⟩

/-- Square a6 (file 0, rank index 5). -/
def sqA6 : Square := ⟨0, 5⟩

/-- A creative-phase game state: a fresh board after the 20-half-move
threshold has been reached, white to act. -/
def cGS : GameState :=
  { initialGameState with phase := Phase.creative, halfMoves := 20 }

/-- A concrete stand-in for the external chess.js engine: a move is
accepted only for a piece of the side to move (chess.js generates legal
moves only for the color whose turn the position records, and rejects the
rest); on success the piece is relocated and the side to move flips. -/
def cEngine : ChessPos → Square → Square → Option ChessPos := fun pos f t =>
  match pos.pieceAt f with
  | some piece =>
      if piece.color = pos.turn then
        some { pieceAt := fun s => if s = t then some piece else if s = f then none else pos.pieceAt s,
               turn := getOpponentColor pos.turn }
      else none
  | none => none

/-- The engine-result position of the witness move e2→e3. -/
def cNC : ChessPos :=
  { pieceAt := fun s => if s = sqE3 then some ⟨PieceType.p, PieceColor.w⟩
               else if s = sqE2 then none else cGS.chess.pieceAt s,
    turn := PieceColor.b }

/-- The state `makeMove` produces for the witness move e2→e3. -/
def cGS2 : GameState := applyMoveResult cGS sqE2 sqE3 cNC

/-- The output of a successful `empBlast` invocation from `cGS`. -/
def cOut : GameState × Registry × Nat :=
  ({ cGS with currentPlayer := PieceColor.b },
   fun x => if x = ActionId.empBlast then true else initialRegistry x, 0)

/-- `cEngine` obeys the chess.js contract: a successful move flips the side
to move. -/
theorem cEngine_turn (pos : ChessPos) (f t : Square) (pos' : ChessPos)
    (h : cEngine pos f t = some pos') : pos'.turn = getOpponentColor pos.turn := by
  unfold cEngine at h
  cases hp : pos.pieceAt f with
  | none => rw [hp] at h; exact absurd h (by simp)
  | some piece =>
    simp only [hp] at h
    by_cases hc : piece.color = pos.turn
    · rw [if_pos hc, Option.some.injEq] at h
      subst h
      rfl
    · rw [if_neg hc] at h
      exact absurd h (by simp)

/-! ### C1 -/

/-- C1, counterexample: a successful `executeAction` (EMP Blast from a
creative-phase state with `halfMoves = 20`) leaves `halfMoves` at 20 — it
does not increment it to 21 as the claim states. -/
theorem fuse_C1_cex :
    (executeAction cGS initialRegistry ActionId.empBlast [] cRng 0).isSome = true ∧
    (executeAction cGS initialRegistry ActionId.empBlast [] cRng 0).map
      (fun o => o.1.halfMoves) = some cGS.halfMoves ∧
    ¬((executeAction cGS initialRegistry ActionId.empBlast [] cRng 0).map
      (fun o => o.1.halfMoves) = some (cGS.halfMoves + 1)) := by
  refine ⟨rfl, rfl, ?_⟩
  intro h
  rw [show (executeAction cGS initialRegistry ActionId.empBlast [] cRng 0).map
      (fun o => o.1.halfMoves) = some 20 from rfl] at h
  simp [cGS] at h

/-- C1, amended: a successful `executeAction` switches `activeColor`
(`currentPlayer`) but leaves `halfMoveCount` (`halfMoves`) unchanged,
whereas a successful `applyMove` (`makeMove`) both switches `activeColor`
(under the chess.js contract that a move flips the side to move, with
`currentPlayer` tracking it) and increments `halfMoveCount` by exactly 1. -/
theorem fuse_C1_amended
    (gs : GameState) (reg : Registry) (a : ActionId) (args : List Square)
    (rng : Nat → Fin 6) (k : Nat) (out : GameState × Registry × Nat)
    (engine : ChessPos → Square → Square → Option ChessPos) (f t : Square) (gs2 : GameState)
    (hact : executeAction gs reg a args rng k = some out)
    (heng : ∀ pos pf pt pos', engine pos pf pt = some pos' →
      pos'.turn = getOpponentColor pos.turn)
    (hsync : gs.chess.turn = gs.currentPlayer)
    (hmove : makeMove engine gs f t = some gs2) :
    out.1.currentPlayer = getOpponentColor gs.currentPlayer ∧
    out.1.halfMoves = gs.halfMoves ∧
    gs2.currentPlayer = getOpponentColor gs.currentPlayer ∧
    gs2.halfMoves = gs.halfMoves + 1 := by
  obtain ⟨gs', reg', k'⟩ := out
  obtain ⟨-, -, hcp, -, hhm, -⟩ := executeAction_some hact
  refine ⟨hcp, hhm, ?_⟩
  unfold makeMove at hmove
  cases he : engine gs.chess f t with
  | none => rw [he] at hmove; exact absurd hmove (by simp)
  | some nc =>
    rw [he] at hmove
    simp only [Option.some.injEq] at hmove
    subst hmove
    have ht := heng gs.chess f t nc he
    constructor
    · show nc.turn = getOpponentColor gs.currentPlayer
      rw [ht, hsync]
    · rfl

/-- C1, witness: the amended theorem applied to the concrete EMP Blast
invocation and the concrete move e2→e3 from `cGS`. -/
theorem fuse_C1_witness :
    cOut.1.currentPlayer = getOpponentColor cGS.currentPlayer ∧
    cOut.1.halfMoves = cGS.halfMoves ∧
    cGS2.currentPlayer = getOpponentColor cGS.currentPlayer ∧
    cGS2.halfMoves = cGS.halfMoves + 1 :=
  fuse_C1_amended cGS initialRegistry ActionId.empBlast [] cRng 0 cOut
    cEngine sqE2 sqE3 cGS2 rfl cEngine_turn rfl rfl

/-! ### C2 -/

/-- The phase/half-move invariant: the phase is creative exactly when the
half-move counter has reached the threshold. -/
def PhaseInv (gs : GameState) : Prop :=
  gs.phase = Phase.creative ↔ CREATIVE_PHASE_THRESHOLD ≤ gs.halfMoves

theorem step_halfMoves_le {st st' : GameState × Registry} (h : Step st st') :
    st.1.halfMoves ≤ st'.1.halfMoves := by
  cases h with
  | move gs reg f t nc => exact Nat.le_succ _
  | action gs reg a args rng k gs' reg' k' hact =>
    obtain ⟨-, -, -, -, hhm, -⟩ := executeAction_some hact
    exact Nat.le_of_eq hhm.symm

theorem step_preserves_inv {st st' : GameState × Registry} (h : Step st st')
    (hinv : PhaseInv st.1) : PhaseInv st'.1 := by
  cases h with
  | move gs reg f t nc =>
    show PhaseInv (applyMoveResult gs f t nc)
    unfold PhaseInv applyMoveResult
    by_cases h20 : CREATIVE_PHASE_THRESHOLD ≤ gs.halfMoves + 1 <;>
      simp [h20]
  | action gs reg a args rng k gs' reg' k' hact =>
    obtain ⟨-, -, -, hph, hhm, -⟩ := executeAction_some hact
    unfold PhaseInv at hinv ⊢
    rw [hph, hhm]
    exact hinv

theorem reachable_inv {st : GameState × Registry} (h : Reachable st) :
    PhaseInv st.1 := by
  induction h with
  | refl => exact ⟨fun h => absurd h (by decide), fun h => absurd h (by decide)⟩
  | tail hsteps hstep ih => exact step_preserves_inv hstep ih

/-- C2: along any sequence of successful moves/actions from a fresh game,
the phase is creative exactly when `halfMoves ≥ 20` (both before and after
any further step), `halfMoves` never decreases, and a creative phase never
reverts to standard on a step. -/
theorem fuse_C2 (st st' : GameState × Registry)
    (h : Reachable st) (hstep : Step st st') :
    (st.1.phase = Phase.creative ↔ CREATIVE_PHASE_THRESHOLD ≤ st.1.halfMoves) ∧
    (st'.1.phase = Phase.creative ↔ CREATIVE_PHASE_THRESHOLD ≤ st'.1.halfMoves) ∧
    st.1.halfMoves ≤ st'.1.halfMoves ∧
    (st.1.phase ≠ Phase.creative ∨ st'.1.phase = Phase.creative) := by
  have hinv : PhaseInv st.1 := reachable_inv h
  have hinv' : PhaseInv st'.1 := step_preserves_inv hstep hinv
  have hle := step_halfMoves_le hstep
  refine ⟨hinv, hinv', hle, ?_⟩
  by_cases hc : st.1.phase = Phase.creative
  · exact Or.inr (hinv'.mpr (le_trans (hinv.mp hc) hle))
  · exact Or.inl hc

/-- C2, witness: the invariant at the fresh game and across its first move
(e2→e3 with an arbitrary engine result). -/
theorem fuse_C2_witness :
    (initialGameState.phase = Phase.creative ↔
      CREATIVE_PHASE_THRESHOLD ≤ initialGameState.halfMoves) ∧
    ((applyMoveResult initialGameState sqE2 sqE3 standardPos).phase = Phase.creative ↔
      CREATIVE_PHASE_THRESHOLD ≤
        (applyMoveResult initialGameState sqE2 sqE3 standardPos).halfMoves) ∧
    initialGameState.halfMoves ≤
      (applyMoveResult initialGameState sqE2 sqE3 standardPos).halfMoves ∧
    (initialGameState.phase ≠ Phase.creative ∨
      (applyMoveResult initialGameState sqE2 sqE3 standardPos).phase = Phase.creative) :=
  fuse_C2 (initialGameState, initialRegistry)
    (applyMoveResult initialGameState sqE2 sqE3 standardPos, initialRegistry)
    Relation.ReflTransGen.refl
    (Step.move initialGameState initialRegistry sqE2 sqE3 standardPos)

/-! ### C3 -/

/-- The empty board. -/
def emptyPos : ChessPos := { pieceAt := fun _ => none, turn := PieceColor.w }

/-- C3, counterexample: when both colors have 0 pieces, `checkWinCondition`
declares black the winner (the white-count branch is checked first) instead
of reporting a draw/no-winner as the claim states. -/
theorem fuse_C3_cex :
    countPieces emptyPos PieceColor.w = 0 ∧
    countPieces emptyPos PieceColor.b = 0 ∧
    checkWinCondition emptyPos = (true, some PieceColor.b) ∧
    (checkWinCondition emptyPos).2 ≠ none := by
  refine ⟨rfl, rfl, rfl, ?_⟩
  intro h
  rw [show (checkWinCondition emptyPos).2 = some PieceColor.b from rfl] at h
  exact absurd h (by simp)

/-- C3, amended: `checkWinCondition` counts pieces per color; if white's
count is 0 black wins with `gameOver = true` (also when black's count is 0
as well — the both-zero case yields black as winner, not a draw); otherwise
if black's count is 0 white wins; otherwise `gameOver = false` with no
winner.  The counts are characterised independently as cardinalities over
all squares. -/
theorem fuse_C3_amended (pos : ChessPos) :
    checkWinCondition pos =
      if colorCard pos PieceColor.w = 0 then (true, some PieceColor.b)
      else if colorCard pos PieceColor.b = 0 then (true, some PieceColor.w)
      else (false, none) := by
  unfold checkWinCondition
  rw [countPieces_eq_colorCard, countPieces_eq_colorCard]

/-! ### C4 -/

/-- Any of the hook's three rejection conditions makes `executeAction`
return before any state update. -/
theorem executeAction_rejects {gs : GameState} {reg : Registry} {a : ActionId}
    {args : List Square} {rng : Nat → Fin 6} {k : Nat}
    (h : reg a = true ∨ gs.phase ≠ Phase.creative ∨
      (needsTarget a = true ∧ validateTarget a gs args = false)) :
    executeAction gs reg a args rng k = none := by
  unfold executeAction
  rcases h with h | h | h
  · rw [if_pos (Or.inl h)]
  · rw [if_pos (Or.inr h)]
  · by_cases h1 : reg a = true ∨ gs.phase ≠ Phase.creative
    · rw [if_pos h1]
    · rw [if_neg h1, if_pos h]

/-- C4: a rejected `executeAction` invocation — action already used, wrong
phase, or `validateTarget` false — returns failure with the game state and
the registry exactly as they were; in particular Snip on an empty square is
rejected by its validator and leaves `ActionUses` for snip at its prior
value.  (`executeActionRun` returns the state the caller observes; every
failure path in the hook precedes the `setGameState`/`setActionRegistry`
calls.) -/
theorem fuse_C4 (gs : GameState) (reg : Registry) (a : ActionId) (args : List Square)
    (rng : Nat → Fin 6) (k : Nat) (t : Square) (rest : List Square)
    (hrej : reg a = true ∨ gs.phase ≠ Phase.creative ∨
      (needsTarget a = true ∧ validateTarget a gs args = false))
    (hempty : gs.chess.pieceAt t = none) :
    executeActionRun gs reg a args rng k = (false, gs, reg) ∧
    validateTarget ActionId.snip gs (t :: rest) = false ∧
    executeActionRun gs reg ActionId.snip (t :: rest) rng k = (false, gs, reg) ∧
    remainingUses ((executeActionRun gs reg ActionId.snip (t :: rest) rng k).2.2)
      ActionId.snip = remainingUses reg ActionId.snip := by
  have hval : validateTarget ActionId.snip gs (t :: rest) = false := by
    unfold validateTarget
    simp only [hempty]
  have hsnip : executeAction gs reg ActionId.snip (t :: rest) rng k = none :=
    executeAction_rejects (Or.inr (Or.inr ⟨rfl, hval⟩))
  have hrun : executeActionRun gs reg ActionId.snip (t :: rest) rng k = (false, gs, reg) := by
    unfold executeActionRun
    rw [hsnip]
  refine ⟨?_, hval, hrun, ?_⟩
  · unfold executeActionRun
    rw [executeAction_rejects hrej]
  · rw [hrun]

/-- C4, witness: from a fresh game (standard phase) a Nuke invocation is
rejected with the state unchanged, and Snip on the empty square e4 is
rejected by its validator. -/
theorem fuse_C4_witness :
    executeActionRun initialGameState initialRegistry ActionId.nuke [] cRng 0
      = (false, initialGameState, initialRegistry) ∧
    validateTarget ActionId.snip initialGameState [sqE4] = false ∧
    executeActionRun initialGameState initialRegistry ActionId.snip [sqE4] cRng 0
      = (false, initialGameState, initialRegistry) ∧
    remainingUses ((executeActionRun initialGameState initialRegistry ActionId.snip
      [sqE4] cRng 0).2.2) ActionId.snip = remainingUses initialRegistry ActionId.snip :=
  fuse_C4 initialGameState initialRegistry ActionId.nuke [] cRng 0 sqE4 []
    (Or.inr (Or.inl (by decide))) rfl

/-! ### C5 -/

/-- C5: a freshly created or reset game has `halfMoves = 0`, standard
phase, not game over, and all 15 actions unused (remaining uses 1 each);
`resetGame` rebuilds exactly the initial state.  The source keeps no
status-effect store at all (the status-tracking executes are stubs), so no
status effects exist in any fresh state; the hook takes no seed — the RNG
is ambient — so the state is the same however the environment is seeded. -/
theorem fuse_C5 :
    initialGameState.halfMoves = 0 ∧
    initialGameState.phase = Phase.standard ∧
    initialGameState.gameOver = false ∧
    initialGameState.winner = none ∧
    (∀ a : ActionId, initialRegistry a = false) ∧
    (∀ a : ActionId, remainingUses initialRegistry a = 1) ∧
    actionIdList.length = 15 ∧
    (getAvailableActions initialRegistry).length = 15 ∧
    resetGame = (initialGameState, initialRegistry) := by
  refine ⟨rfl, rfl, rfl, rfl, fun a => rfl, fun a => rfl, rfl, rfl, rfl⟩

/-! ### C6 -/

/-- C6, code bug: shielding the white pawn on e2 (Shield's `execute` is a
stub returning the state unchanged) gives no protection — the very next
removal-attempting action targeting it, black's Snip, succeeds and removes
the pawn immediately, instead of being absorbed by the shield once. -/
theorem fuse_C6_bug :
    (executeAction cGS initialRegistry ActionId.shield [sqE2] cRng 0).map
      (fun o => o.1.chess.pieceAt sqE2) = some (some ⟨PieceType.p, PieceColor.w⟩) ∧
    ((executeAction cGS initialRegistry ActionId.shield [sqE2] cRng 0).bind fun o =>
      executeAction o.1 o.2.1 ActionId.snip [sqE2] cRng o.2.2).map
      (fun o => o.1.chess.pieceAt sqE2) = some none :=
  ⟨rfl, rfl⟩

/-! ### C7 -/

/-- The registry after white's Rubber-Band Shot. -/
def cRegAfterRB : Registry :=
  fun x => if x = ActionId.rubberBand then true else initialRegistry x

/-- The state after white's e2→e3 following the Rubber-Band Shot on b8. -/
def cGS7 : GameState :=
  applyMoveResult { cGS with currentPlayer := PieceColor.b } sqE2 sqE3 cNC

/-- C7, code bug: Rubber-Band Shot's `execute` is a stub.  Freezing the
black knight on b8 produces a state identical to the input except for the
hook's player flip — in particular the chess position, its side to move
included, is untouched, and no freeze is recorded anywhere (first
conjunct).  Black's immediate b8→c6 is rejected, but only because the
untouched position still has white to move: the unrelated pawn move a7→a6
is rejected identically, so the rejection is the action/side-to-move
desynchronisation, not a freeze (second and third conjuncts).  After white
plays e2→e3 (fourth conjunct) it is black's first turn as the frozen
piece's owner — both `currentPlayer` and the engine's side to move are
black (fifth conjunct) — and `applyMove` from the "frozen" square b8
already succeeds (sixth conjunct), instead of failing for that one owner
turn as the claim requires for n = 1. -/
theorem fuse_C7_bug :
    executeAction cGS initialRegistry ActionId.rubberBand [sqB8] cRng 0
      = some ({ cGS with currentPlayer := PieceColor.b }, cRegAfterRB, 0) ∧
    makeMove cEngine { cGS with currentPlayer := PieceColor.b } sqB8 sqC6 = none ∧
    makeMove cEngine { cGS with currentPlayer := PieceColor.b } sqA7 sqA6 = none ∧
    makeMove cEngine { cGS with currentPlayer := PieceColor.b } sqE2 sqE3 = some cGS7 ∧
    (cGS7.currentPlayer = PieceColor.b ∧ cGS7.chess.turn = PieceColor.b) ∧
    (makeMove cEngine cGS7 sqB8 sqC6).isSome = true :=
  ⟨rfl, rfl, rfl, rfl, ⟨rfl, rfl⟩, rfl⟩

/-! ### C8 -/

/-- C8: Sniper Shot's validator succeeds if and only if the target square
holds an opponent piece and some piece of the acting player is at Manhattan
distance at least 3 from the target; in particular it fails whenever every
own piece is within distance 2, even against a valid enemy piece. -/
theorem fuse_C8 (gs : GameState) (t : Square) (rest : List Square) :
    validateTarget ActionId.sniperShot gs (t :: rest) = true ↔
      (∃ piece, gs.chess.pieceAt t = some piece ∧ piece.color ≠ gs.currentPlayer) ∧
      (∃ s piece, gs.chess.pieceAt s = some piece ∧ piece.color = gs.currentPlayer ∧
        3 ≤ getSquareDistance s t) := by
  unfold validateTarget
  cases h : gs.chess.pieceAt t with
  | none =>
    simp only [h]
    constructor
    · intro hf
      exact absurd hf (by simp)
    · rintro ⟨⟨piece, hp, -⟩, -⟩
      exact absurd hp (by simp)
  | some piece =>
    simp only [h, Bool.and_eq_true, decide_eq_true_eq, List.any_eq_true]
    constructor
    · rintro ⟨hc, ⟨⟨p2, s2⟩, hmem, hd⟩⟩
      rw [mem_getPiecesOfColor] at hmem
      exact ⟨⟨piece, rfl, hc⟩, s2, p2, hmem.1, hmem.2, by simpa using hd⟩
    · rintro ⟨⟨piece', hp', hc'⟩, s2, p2, hmem, hcol, hd⟩
      rw [Option.some.injEq] at hp'
      subst hp'
      exact ⟨hc', ⟨(p2, s2), mem_getPiecesOfColor.mpr ⟨hmem, hcol⟩, by simpa using hd⟩⟩

/-! ### C9 -/

/-- C9 (deterministic core): the Rocket Barrage loop consumes exactly one
d6 draw per target, in left-to-right target order (the `i`-th target uses
the `k+i`-th draw), never touches the side to move, and removes a square
exactly when it occurs as some target whose draw is ≥ 4.  The final board
is thus a function of the draw stream and the target order alone. -/
theorem fuse_C9 (rng : Nat → Fin 6) (pos : ChessPos) (k : Nat) (ts : List Square) :
    (rocketGo rng pos k ts).2 = k + ts.length ∧
    (rocketGo rng pos k ts).1.turn = pos.turn ∧
    ∀ s : Square, (rocketGo rng pos k ts).1.pieceAt s =
      if ∃ i : Fin ts.length, ts.get i = s ∧ 4 ≤ (rng (k + i.val)).val + 1
      then none else pos.pieceAt s := by
  induction ts generalizing pos k with
  | nil =>
    refine ⟨rfl, rfl, fun s => ?_⟩
    rw [if_neg]
    · rfl
    · rintro ⟨i, -⟩
      exact Nat.not_lt_zero _ i.isLt
  | cons t ts ih =>
    have hstep : rocketGo rng pos k (t :: ts)
        = rocketGo rng (if 4 ≤ (rng k).val + 1 then removeSquare pos t else pos) (k + 1) ts :=
      rfl
    obtain ⟨ih1, ih2, ih3⟩ :=
      ih (if 4 ≤ (rng k).val + 1 then removeSquare pos t else pos) (k + 1)
    rw [hstep]
    refine ⟨?_, ?_, fun s => ?_⟩
    · rw [ih1, List.length_cons]
      omega
    · rw [ih2]
      by_cases hr : 4 ≤ (rng k).val + 1 <;> simp [hr, removeSquare]
    · rw [ih3 s]
      by_cases hC : ∃ i : Fin ts.length, ts.get i = s ∧ 4 ≤ (rng (k + 1 + i.val)).val + 1
      · rw [if_pos hC, if_pos]
        obtain ⟨i, h1, h2⟩ := hC
        refine ⟨⟨i.val + 1, by simp only [List.length_cons]; omega⟩, ?_, ?_⟩
        · show ts.get ⟨i.val, i.isLt⟩ = s
          exact h1
        · show 4 ≤ (rng (k + (i.val + 1))).val + 1
          rw [show k + (i.val + 1) = k + 1 + i.val from by omega]
          exact h2
      · rw [if_neg hC]
        by_cases hr : 4 ≤ (rng k).val + 1
        · rw [if_pos hr]
          by_cases hts : s = t
          · have hmem : ∃ i : Fin (t :: ts).length,
                (t :: ts).get i = s ∧ 4 ≤ (rng (k + i.val)).val + 1 :=
              ⟨⟨0, Nat.succ_pos _⟩, hts.symm, hr⟩
            rw [if_pos hmem]
            show (if s = t then none else pos.pieceAt s) = none
            rw [if_pos hts]
          · rw [if_neg]
            · show (if s = t then none else pos.pieceAt s) = pos.pieceAt s
              rw [if_neg hts]
            · rintro ⟨⟨iv, hlt⟩, h1, h2⟩
              cases iv with
              | zero =>
                have ht : t = s := h1
                exact hts ht.symm
              | succ n =>
                refine hC ⟨⟨n, Nat.lt_of_succ_lt_succ hlt⟩, h1, ?_⟩
                rw [show k + 1 + n = k + (n + 1) from by omega]
                exact h2
        · rw [if_neg hr, if_neg]
          rintro ⟨⟨iv, hlt⟩, h1, h2⟩
          cases iv with
          | zero => exact hr h2
          | succ n =>
            refine hC ⟨⟨n, Nat.lt_of_succ_lt_succ hlt⟩, h1, ?_⟩
            rw [show k + 1 + n = k + (n + 1) from by omega]
            exact h2

/-! ### C10 -/

/-- Square `s` holds a piece of color `c` and type `ty`. -/
def hasOppType (gs : GameState) (c : PieceColor) (ty : PieceType) (s : Square) : Prop :=
  ∃ piece, gs.chess.pieceAt s = some piece ∧ piece.color = c ∧ piece.type = ty

/-- `s` is the first square in the source's rank-then-file scan order
(rank 1→8, file a→h) holding a piece of color `c` and type `ty`. -/
def firstOppType (gs : GameState) (c : PieceColor) (ty : PieceType) (s : Square) : Prop :=
  hasOppType gs c ty s ∧ ∀ s', hasOppType gs c ty s' → scanIdx s ≤ scanIdx s'

theorem robotFind_none (gs : GameState) (oc : PieceColor) (ty : PieceType)
    (h : ¬∃ s, hasOppType gs oc ty s) :
    (getPiecesOfColor gs.chess oc).find? (fun ps => ps.1.type == ty) = none := by
  cases hf : (getPiecesOfColor gs.chess oc).find? (fun ps => ps.1.type == ty) with
  | none => rfl
  | some ps =>
    obtain ⟨pp, ss⟩ := ps
    obtain ⟨hmem, hpred, -⟩ :=
      find?_first_of_pairwise (pairwise_getPiecesOfColor gs.chess oc) hf
    rw [mem_getPiecesOfColor] at hmem
    exact absurd ⟨ss, pp, hmem.1, hmem.2, by simpa using hpred⟩ h

theorem robotFind_some (gs : GameState) (oc : PieceColor) (ty : PieceType)
    (h : ∃ s, hasOppType gs oc ty s) :
    ∃ p s, (getPiecesOfColor gs.chess oc).find? (fun ps => ps.1.type == ty) = some (p, s) ∧
      firstOppType gs oc ty s := by
  obtain ⟨s0, p0, h1, h2, h3⟩ := h
  have hmem0 : (p0, s0) ∈ getPiecesOfColor gs.chess oc :=
    mem_getPiecesOfColor.mpr ⟨h1, h2⟩
  have hsome : ((getPiecesOfColor gs.chess oc).find? fun ps =>
      ps.1.type == ty).isSome = true :=
    find?_isSome_of_mem hmem0 (by simpa using h3)
  obtain ⟨⟨p, s⟩, hf⟩ := Option.isSome_iff_exists.mp hsome
  obtain ⟨hmem, hpred, hmin⟩ :=
    find?_first_of_pairwise (pairwise_getPiecesOfColor gs.chess oc) hf
  rw [mem_getPiecesOfColor] at hmem
  refine ⟨p, s, hf, ⟨p, hmem.1, hmem.2, by simpa using hpred⟩, ?_⟩
  intro s' hs'
  obtain ⟨p', h1', h2', h3'⟩ := hs'
  have hmem' : (p', s') ∈ getPiecesOfColor gs.chess oc :=
    mem_getPiecesOfColor.mpr ⟨h1', h2'⟩
  rcases hmin (p', s') hmem' (by simpa using h3') with heq | hlt
  · rw [show s = s' from congrArg Prod.snd heq]
  · exact le_of_lt hlt

/-- C10: with a pilot piece on the target square, Robot Proxy removes the
first opponent piece of the pilot's type in the rank-then-file scan order;
failing that the first opponent pawn, else the first queen, else the first
king; and if the opponent has none of those types the board is returned
unchanged. -/
theorem fuse_C10 (gs : GameState) (t : Square) (pilot : Piece)
    (hp : gs.chess.pieceAt t = some pilot) :
    ((∃ s, hasOppType gs (getOpponentColor pilot.color) pilot.type s) →
      ∃ s, firstOppType gs (getOpponentColor pilot.color) pilot.type s ∧
        robotProxyExec gs t = { gs with chess := removeSquare gs.chess s }) ∧
    ((¬∃ s, hasOppType gs (getOpponentColor pilot.color) pilot.type s) →
      (∃ s, hasOppType gs (getOpponentColor pilot.color) PieceType.p s) →
      ∃ s, firstOppType gs (getOpponentColor pilot.color) PieceType.p s ∧
        robotProxyExec gs t = { gs with chess := removeSquare gs.chess s }) ∧
    ((¬∃ s, hasOppType gs (getOpponentColor pilot.color) pilot.type s) →
      (¬∃ s, hasOppType gs (getOpponentColor pilot.color) PieceType.p s) →
      (∃ s, hasOppType gs (getOpponentColor pilot.color) PieceType.q s) →
      ∃ s, firstOppType gs (getOpponentColor pilot.color) PieceType.q s ∧
        robotProxyExec gs t = { gs with chess := removeSquare gs.chess s }) ∧
    ((¬∃ s, hasOppType gs (getOpponentColor pilot.color) pilot.type s) →
      (¬∃ s, hasOppType gs (getOpponentColor pilot.color) PieceType.p s) →
      (¬∃ s, hasOppType gs (getOpponentColor pilot.color) PieceType.q s) →
      (∃ s, hasOppType gs (getOpponentColor pilot.color) PieceType.k s) →
      ∃ s, firstOppType gs (getOpponentColor pilot.color) PieceType.k s ∧
        robotProxyExec gs t = { gs with chess := removeSquare gs.chess s }) ∧
    ((¬∃ s, hasOppType gs (getOpponentColor pilot.color) pilot.type s) →
      (¬∃ s, hasOppType gs (getOpponentColor pilot.color) PieceType.p s) →
      (¬∃ s, hasOppType gs (getOpponentColor pilot.color) PieceType.q s) →
      (¬∃ s, hasOppType gs (getOpponentColor pilot.color) PieceType.k s) →
      robotProxyExec gs t = gs) := by
  refine ⟨?_, ?_, ?_, ?_, ?_⟩
  · intro hex
    obtain ⟨p, s, hf, hfirst⟩ := robotFind_some gs _ pilot.type hex
    refine ⟨s, hfirst, ?_⟩
    unfold robotProxyExec
    simp only [hp]
    rw [hf]
  · intro hno hex
    obtain ⟨p, s, hf, hfirst⟩ := robotFind_some gs _ PieceType.p hex
    refine ⟨s, hfirst, ?_⟩
    unfold robotProxyExec
    simp only [hp]
    rw [robotFind_none gs _ pilot.type hno, hf]
  · intro hno hnp hex
    obtain ⟨p, s, hf, hfirst⟩ := robotFind_some gs _ PieceType.q hex
    refine ⟨s, hfirst, ?_⟩
    unfold robotProxyExec
    simp only [hp]
    rw [robotFind_none gs _ pilot.type hno, robotFind_none gs _ PieceType.p hnp, hf]
  · intro hno hnp hnq hex
    obtain ⟨p, s, hf, hfirst⟩ := robotFind_some gs _ PieceType.k hex
    refine ⟨s, hfirst, ?_⟩
    unfold robotProxyExec
    simp only [hp]
    rw [robotFind_none gs _ pilot.type hno, robotFind_none gs _ PieceType.p hnp,
      robotFind_none gs _ PieceType.q hnq, hf]
  · intro hno hnp hnq hnk
    unfold robotProxyExec
    simp only [hp]
    rw [robotFind_none gs _ pilot.type hno, robotFind_none gs _ PieceType.p hnp,
      robotFind_none gs _ PieceType.q hnq, robotFind_none gs _ PieceType.k hnk]

/-- C10, witness: from the standard initial position, piloting the white
knight on b1 removes the first black knight in scan order. -/
theorem fuse_C10_witness :
    ∃ s, firstOppType initialGameState PieceColor.b PieceType.n s ∧
      robotProxyExec initialGameState sqB1 =
        { initialGameState with chess := removeSquare initialGameState.chess s } :=
  (fuse_C10 initialGameState sqB1 ⟨PieceType.n, PieceColor.w⟩ rfl).1
    ⟨sqB8, ⟨PieceType.n, PieceColor.b⟩, rfl, rfl, rfl⟩
